import Mathlib

/-!
# Verification of the campaign-analysis pipeline

A shallow embedding of `app.py`: a dashboard pipeline that normalizes a CSV
of email-campaign statistics (percentage strings, timestamps), categorizes
campaigns by name, sorts rows by open rate, flags IQR outliers over the whole
dataset, and produces a per-group summary table sorted by mean open rate.

Numbers are modelled as exact rationals (`ℚ`); pandas `Series` columns as
lists; a failing pandas conversion as `Except` with an error value recording
the offending field and row.
-/

namespace CampaignApp

/-- One parsed CSV row: the five required columns, as raw strings. -/
structure RawRow where
  campaignName : String
  campaignId : String
  subject : String
  sendTime : String
  openRate : String
deriving DecidableEq

/-! ## Open-rate normalization: `str.rstrip("%").astype("float") / 100.0` -/

/-- Numeric value of a decimal digit character. -/
def digitVal (c : Char) : Nat := c.toNat - 48

/-- Value of a digit string, most significant digit first. -/
def natVal (cs : List Char) : Nat := cs.foldl (fun acc c => 10 * acc + digitVal c) 0

/-- Split a numeral at its first `'.'`: the characters before it, and the
characters after it when it occurs. -/
def splitIntFrac : List Char → List Char × Option (List Char)
  | [] => ([], none)
  | c :: rest =>
    if c = '.' then ([], some rest)
    else
      let p := splitIntFrac rest
      (c :: p.1, p.2)

/-- Unsigned decimal numeral (Python `float` on e.g. `"12"`, `"12.5"`, `".5"`, `"5."`);
`none` when the characters are not a decimal numeral. -/
def parseUnsigned (cs : List Char) : Option ℚ :=
  match splitIntFrac cs with
  | (intPart, none) =>
    if intPart ≠ [] ∧ intPart.all Char.isDigit then some ((natVal intPart : ℚ)) else none
  | (intPart, some frac) =>
    if (intPart ≠ [] ∨ frac ≠ []) ∧ intPart.all Char.isDigit ∧ frac.all Char.isDigit then
      some ((natVal intPart : ℚ) + (natVal frac : ℚ) / (10 : ℚ) ^ frac.length)
    else none

/-- Python `float(...)` as used by `astype("float")`, restricted to plain
decimal numerals with an optional sign: scientific notation, infinity/NaN
words and whitespace-padded forms are outside the model. Every string this
parser accepts is accepted by Python float with the same value, and clearly
non-numeric strings such as "abc" are rejected by both. -/
def parseFloat : List Char → Option ℚ
  | '-' :: rest => (parseUnsigned rest).map (fun q => -q)
  | '+' :: rest => parseUnsigned rest
  | cs => parseUnsigned cs

/-- Python `str.rstrip("%")`: drop every trailing `'%'` character. -/
def rstripPercent (cs : List Char) : List Char :=
  (cs.reverse.dropWhile (fun c => c == '%')).reverse

/-- One entry of `df["Open Rate"].str.rstrip("%").astype("float") / 100.0`. -/
def normalizeOpenRate (s : String) : Option ℚ :=
  (parseFloat (rstripPercent s.data)).map (fun q => q / 100)

/-! ## Timestamp normalization: `pd.to_datetime(..., format="%Y-%m-%d %H:%M:%S")` -/

/-- A calendar timestamp, the result of a successful `to_datetime`. -/
structure Timestamp where
  year : Nat
  month : Nat
  day : Nat
  hour : Nat
  minute : Nat
  second : Nat
deriving DecidableEq

def isLeapYear (y : Nat) : Bool :=
  (y % 4 == 0 && y % 100 != 0) || y % 400 == 0

def daysInMonth (y m : Nat) : Nat :=
  if m == 2 then (if isLeapYear y then 29 else 28)
  else if m == 4 || m == 6 || m == 9 || m == 11 then 30
  else 31

/-- Parse a `YYYY-MM-DD HH:MM:SS` string; `none` when the shape or the
calendar/clock ranges do not match. This is a restriction of the pandas
conversion: unpadded fields and the datetime64 nanosecond range bounds are
not modelled, so it is relied on only for facts that hold of both — modern
in-range timestamps parse, and range violations such as month 13 fail. -/
def parseTimestamp (s : String) : Option Timestamp :=
  match s.data with
  | [y1, y2, y3, y4, p1, m1, m2, p2, d1, d2, sp, h1, h2, q1, n1, n2, q2, s1, s2] =>
    if ([y1, y2, y3, y4, m1, m2, d1, d2, h1, h2, n1, n2, s1, s2].all Char.isDigit
        && p1 == '-' && p2 == '-' && sp == ' ' && q1 == ':' && q2 == ':') then
      let y := natVal [y1, y2, y3, y4]
      let mo := natVal [m1, m2]
      let d := natVal [d1, d2]
      let h := natVal [h1, h2]
      let mi := natVal [n1, n2]
      let se := natVal [s1, s2]
      if 1 ≤ mo ∧ mo ≤ 12 ∧ 1 ≤ d ∧ d ≤ daysInMonth y mo ∧ h ≤ 23 ∧ mi ≤ 59 ∧ se ≤ 59 then
        some ⟨y, mo, d, h, mi, se⟩
      else none
    else none
  | _ => none

/-! ## Categorizer and URL deriver -/

/-- Python substring test `needle in haystack` on character lists. -/
def listContains (haystack needle : List Char) : Bool :=
  match haystack with
  | [] => needle == []
  | _ :: rest => needle.isPrefixOf haystack || listContains rest needle

/-- Python `needle in haystack` on strings. -/
def strContains (haystack needle : String) : Bool :=
  listContains haystack.data needle.data

/-- Python `str.lower()` on one character (the campaign names are ASCII text,
so ASCII lowering models `lower()` on them). -/
def charLower (c : Char) : Char :=
  if 'A' ≤ c ∧ c ≤ 'Z' then Char.ofNat (c.toNat + 32) else c

/-- Python `str.lower()`. -/
def strLower (s : String) : String :=
  String.mk (s.data.map charLower)

/-- Function `categorize_campaign` from `app.py`: lowercase the name, then first
matching keyword wins. -/
def categorize_campaign (name : String) : String :=
  let lower := strLower name
  if strContains lower ("wednesday") then "Wednesday Campaign"
  else if strContains lower ("friday") then "Friday Campaign"
  else if strContains lower ("monday") then "Monday Campaign"
  else if strContains lower ("monthly") then "Monthly Campaign"
  else "Other"

/-- Function `create_campaign_url` from `app.py`. -/
def create_campaign_url (campaign_id : String) : String :=
  "https://www.klaviyo.com/campaign/" ++ campaign_id ++ "/reports/overview"

/-! ## Row records and the outlier flagger -/

/-- A processed row: the `SHOW_COLUMNS` of the row-level table. -/
structure Record where
  campaignGroup : String
  campaignName : String
  subject : String
  openRate : ℚ
  sendDate : Nat × Nat × Nat
  campaignUrl : String
deriving DecidableEq

/-- Model of `Series.quantile q`: linear interpolation over the sorted values
(the pandas default interpolation). -/
def quantile (l : List ℚ) (q : ℚ) : ℚ :=
  let s := l.insertionSort (· ≤ ·)
  let h : ℚ := ((l.length : ℚ) - 1) * q
  let i := (⌊h⌋).toNat
  let frac : ℚ := h - (i : ℚ)
  match s[i]?, s[i + 1]? with
  | some a, some b => a + frac * (b - a)
  | some a, none => a
  | none, _ => 0

/-- Function `identify_outliers` from `app.py`: the IQR rule over all open rates,
flagging each record in place (the added `Is Outlier` column). -/
def identify_outliers (recs : List Record) : List (Record × Bool) :=
  let rates := recs.map Record.openRate
  let Q1 := quantile rates (1/4)
  let Q3 := quantile rates (3/4)
  let IQR := Q3 - Q1
  let lower_bound := Q1 - 3/2 * IQR
  let upper_bound := Q3 + 3/2 * IQR
  recs.map (fun r => (r, decide (r.openRate < lower_bound ∨ upper_bound < r.openRate)))

/-! ## Grouping and aggregation -/

/-- Lexicographic code-point comparison of character lists: Python string `<=`,
the key order used by `groupby` (keys sorted ascending). -/
def charListLe : List Char → List Char → Bool
  | [], _ => true
  | _ :: _, [] => false
  | a :: as, b :: bs =>
    if a.toNat = b.toNat then charListLe as bs else decide (a.toNat < b.toNat)

/-- Label order of the grouped table: `groupby` sorts group keys ascending. -/
def labelLe (a b : String) : Prop := charListLe a.data b.data = true

instance : DecidableRel labelLe := fun a b => by unfold labelLe; infer_instance

/-- The distinct campaign-group labels in grouped-table order (sorted ascending). -/
def groupLabels (flagged : List (Record × Bool)) : List String :=
  ((flagged.map (fun rb => rb.1.campaignGroup)).dedup).insertionSort labelLe

/-- One row of the grouped table. -/
structure SummaryRow where
  campaignGroup : String
  meanOpenRate : ℚ
  medianOpenRate : ℚ
  campaignCount : Nat
deriving DecidableEq

/-- One group label entry of the mean/median/count aggregation. -/
def summarize (flagged : List (Record × Bool)) (label : String) : SummaryRow :=
  let rates := (flagged.filter (fun rb => rb.1.campaignGroup == label)).map
    (fun rb => rb.1.openRate)
  { campaignGroup := label
    meanOpenRate := rates.sum / (rates.length : ℚ)
    medianOpenRate := quantile rates (1/2)
    campaignCount := rates.length }

/-! ## The pipeline: `process_data` -/

/-- A failed pandas column conversion, recording the offending field
(constructor), row index and raw value. -/
inductive FieldError where
  | sendTime (row : Nat) (value : String)
  | openRate (row : Nat) (value : String)
deriving DecidableEq

/-- Convert one column of raw strings, failing on the first value (by row
index) that does not parse — as `pd.to_datetime` / `astype("float")` fail on
a whole column. -/
def mapColumn {α : Type} (f : String → Option α) (mk : Nat → String → FieldError) :
    Nat → List String → Except FieldError (List α)
  | _, [] => Except.ok []
  | i, v :: vs =>
    match f v with
    | none => Except.error (mk i v)
    | some a =>
      match mapColumn f mk (i + 1) vs with
      | Except.error e => Except.error e
      | Except.ok as => Except.ok (a :: as)

/-- Build the record of each row from its raw row and its two converted fields. -/
def buildRecord (row : RawRow) (time : Timestamp) (rate : ℚ) : Record :=
  { campaignGroup := categorize_campaign row.campaignName
    campaignName := row.campaignName
    subject := row.subject
    openRate := rate
    sendDate := (time.year, time.month, time.day)
    campaignUrl := create_campaign_url row.campaignId }

/-- Build all records by zipping the rows with their converted columns. -/
def buildRecords (rows : List RawRow) (times : List Timestamp) (rates : List ℚ) :
    List Record :=
  (rows.zip (times.zip rates)).map (fun rt => buildRecord rt.1 rt.2.1 rt.2.2)

/-- Descending comparison on record open rates, the key of
`sort_values("Open Rate", ascending=False)`. -/
def rateGE (a b : Record) : Prop := b.openRate ≤ a.openRate

instance : DecidableRel rateGE := fun a b => inferInstanceAs (Decidable (b.openRate ≤ a.openRate))

instance : IsTotal Record rateGE := ⟨fun a b => le_total b.openRate a.openRate⟩

instance : IsTrans Record rateGE := ⟨fun _ _ _ h1 h2 => le_trans h2 h1⟩

/-- Descending comparison on summary means, the key of
`sort_values("Mean Open Rate", ascending=False)`. -/
def meanGE (a b : SummaryRow) : Prop := b.meanOpenRate ≤ a.meanOpenRate

instance : DecidableRel meanGE := fun a b => inferInstanceAs (Decidable (b.meanOpenRate ≤ a.meanOpenRate))

instance : IsTotal SummaryRow meanGE := ⟨fun a b => le_total b.meanOpenRate a.meanOpenRate⟩

instance : IsTrans SummaryRow meanGE := ⟨fun _ _ _ h1 h2 => le_trans h2 h1⟩

/-- Model of `sort_values` on the record list, by open rate descending. -/
def sortRecords (recs : List Record) : List Record :=
  recs.insertionSort rateGE

/-- Model of `sort_values` on the grouped table, by mean open rate descending. -/
def sortSummary (rows : List SummaryRow) : List SummaryRow :=
  rows.insertionSort meanGE

/-- The whole grouped table: aggregate per label, then sort by mean
descending. -/
def summaryOf (flagged : List (Record × Bool)) : List SummaryRow :=
  sortSummary ((groupLabels flagged).map (summarize flagged))

/-- Function `process_data` from `app.py`: normalize both columns (aborting on the
first malformed value), categorize, derive URLs, sort rows by open rate
descending, flag outliers, and build the summary table sorted by mean open
rate descending. -/
def process_data (rows : List RawRow) :
    Except FieldError (List (Record × Bool) × List SummaryRow) :=
  match mapColumn parseTimestamp FieldError.sendTime 0 (rows.map RawRow.sendTime) with
  | Except.error e => Except.error e
  | Except.ok times =>
    match mapColumn normalizeOpenRate FieldError.openRate 0 (rows.map RawRow.openRate) with
    | Except.error e => Except.error e
    | Except.ok rates =>
      let flagged := identify_outliers (sortRecords (buildRecords rows times rates))
      Except.ok (flagged, summaryOf flagged)

/-- A row is malformed when either typed field fails to convert. -/
def malformed (r : RawRow) : Prop :=
  parseTimestamp r.sendTime = none ∨ normalizeOpenRate r.openRate = none

instance : DecidablePred malformed := fun r => by unfold malformed; infer_instance

/-! ## Helper constructors for concrete instances -/

/-- The decimal digit character for a digit value. -/
def digitChar (i : Fin 10) : Char := Char.ofNat (48 + i.val)

/-- A minimal record with a given open rate, for concrete instances. -/
def mkRec (q : ℚ) : Record :=
  { campaignGroup := "Other", campaignName := "", subject := "", openRate := q,
    sendDate := (2024, 1, 1), campaignUrl := "" }

/-- A well-formed raw row, for concrete instances. -/
def goodRow : RawRow :=
  ⟨"Monday Update", "1", "Subj", "2024-08-21 12:00:00", "10.00%"⟩

/-- A raw row whose `Open Rate` is non-numeric (and has no `%`). -/
def badRow : RawRow :=
  ⟨"Weekly News", "2", "Subj", "2024-08-22 12:00:00", "abc"⟩

/-- A raw row whose `Open Rate` lacks the `%` suffix but is numeric. -/
def rowNoPct : RawRow :=
  ⟨"Some Campaign", "3", "Subj", "2024-08-21 12:00:00", "50"⟩

/-- A raw row whose `Send Time` does not match the timestamp pattern. -/
def rowBadTime : RawRow :=
  ⟨"Late Campaign", "4", "Subj", "2024-13-01 00:00:00", "10.00%"⟩

/-- A raw row whose `Open Rate` exceeds 100%. -/
def row150 : RawRow :=
  ⟨"Big Campaign", "5", "Subj", "2024-08-21 12:00:00", "150.00%"⟩

/-- Rows with ascending open rates, to exhibit the output reordering. -/
def rowA : RawRow := ⟨"A", "6", "Subj", "2024-08-21 12:00:00", "10.00%"⟩

def rowB : RawRow := ⟨"B", "7", "Subj", "2024-08-22 12:00:00", "20.00%"⟩

/-- Three rows in three distinct groups with means 0.10, 0.30, 0.20. -/
def rowG1 : RawRow := ⟨"Monday Update", "8", "Subj", "2024-08-21 12:00:00", "10.00%"⟩

def rowG2 : RawRow := ⟨"Friday News", "9", "Subj", "2024-08-22 12:00:00", "30.00%"⟩

def rowG3 : RawRow := ⟨"Plain Blast", "10", "Subj", "2024-08-23 12:00:00", "20.00%"⟩

/-- The records the pipeline builds for the three-group rows. -/
def recG1 : Record := buildRecord rowG1 ⟨2024, 8, 21, 12, 0, 0⟩ (1/10)

def recG2 : Record := buildRecord rowG2 ⟨2024, 8, 22, 12, 0, 0⟩ (3/10)

def recG3 : Record := buildRecord rowG3 ⟨2024, 8, 23, 12, 0, 0⟩ (1/5)

/-! ## Evaluation lemmas for the open-rate normalizer -/

lemma ne_of_isDigit {c x : Char} (h : c.isDigit = true) (hx : x.isDigit = false) : c ≠ x := by
  intro e
  rw [e, hx] at h
  cases h

lemma beq_percent_false_of_isDigit {c : Char} (h : c.isDigit = true) : (c == '%') = false := by
  have : c ≠ '%' := ne_of_isDigit h (by decide)
  simpa using this

lemma splitIntFrac_digits (cs : List Char) (h : cs.all Char.isDigit = true) :
    splitIntFrac cs = (cs, none) := by
  induction cs with
  | nil => rfl
  | cons c rest ih =>
    rw [List.all_cons, Bool.and_eq_true] at h
    have hc : c ≠ '.' := ne_of_isDigit h.1 (by decide)
    simp [splitIntFrac, hc, ih h.2]

lemma splitIntFrac_dot (l1 l2 : List Char) (h : l1.all Char.isDigit = true) :
    splitIntFrac (l1 ++ '.' :: l2) = (l1, some l2) := by
  induction l1 with
  | nil => simp [splitIntFrac]
  | cons c rest ih =>
    rw [List.all_cons, Bool.and_eq_true] at h
    have hc : c ≠ '.' := ne_of_isDigit h.1 (by decide)
    simp [splitIntFrac, hc, ih h.2]

lemma parseUnsigned_digits (cs : List Char) (hne : cs ≠ []) (h : cs.all Char.isDigit = true) :
    parseUnsigned cs = some ((natVal cs : ℚ)) := by
  rw [parseUnsigned, splitIntFrac_digits cs h]
  simp [hne, h]

lemma parseUnsigned_dot (l1 l2 : List Char) (h1 : l1.all Char.isDigit = true)
    (h2 : l2.all Char.isDigit = true) (hne : l1 ≠ [] ∨ l2 ≠ []) :
    parseUnsigned (l1 ++ '.' :: l2) =
      some ((natVal l1 : ℚ) + (natVal l2 : ℚ) / (10 : ℚ) ^ l2.length) := by
  rw [parseUnsigned, splitIntFrac_dot l1 l2 h1]
  simp [hne, h1, h2]

lemma parseFloat_of_head_ne (cs : List Char) (hm : ∀ rest, cs ≠ '-' :: rest)
    (hp : ∀ rest, cs ≠ '+' :: rest) : parseFloat cs = parseUnsigned cs := by
  rw [parseFloat.eq_def]
  split
  · exact absurd rfl (hm _)
  · exact absurd rfl (hp _)
  · rfl

lemma parseFloat_of_digit_or_dot (cs : List Char)
    (h : ∀ c ∈ cs, c.isDigit = true ∨ c = '.') : parseFloat cs = parseUnsigned cs := by
  match cs with
  | [] => rfl
  | c :: rest =>
    have hc := h c (List.mem_cons_self c rest)
    have hcm : c ≠ '-' := by
      rcases hc with hd | hd
      · exact ne_of_isDigit hd (by decide)
      · rw [hd]; decide
    have hcp : c ≠ '+' := by
      rcases hc with hd | hd
      · exact ne_of_isDigit hd (by decide)
      · rw [hd]; decide
    apply parseFloat_of_head_ne
    · intro r he
      injection he with h1 _
      exact hcm h1
    · intro r he
      injection he with h1 _
      exact hcp h1

lemma dropWhile_head_false {p : Char → Bool} :
    ∀ l : List Char, (∀ c ∈ l, p c = false) → l.dropWhile p = l
  | [], _ => rfl
  | c :: rest, h => by simp [List.dropWhile, h c (List.mem_cons_self c rest)]

lemma rstripPercent_append (cs : List Char) :
    rstripPercent (cs ++ ['%']) = rstripPercent cs := by
  simp [rstripPercent, List.dropWhile]

lemma rstripPercent_of_no_percent (cs : List Char) (h : ∀ c ∈ cs, (c == '%') = false) :
    rstripPercent cs = cs := by
  rw [rstripPercent,
    dropWhile_head_false _ (fun c hc => h c (List.mem_reverse.mp hc)),
    List.reverse_reverse]

lemma all_digits_mem {cs : List Char} (h : cs.all Char.isDigit = true) :
    ∀ c ∈ cs, c.isDigit = true := fun c hc => by
  have := List.all_eq_true.mp h c hc
  simpa using this

/-- Evaluate the normalizer on `"<digits>.<digits>%"`. -/
lemma normalizeOpenRate_dot_percent (l1 l2 : List Char) (h1 : l1.all Char.isDigit = true)
    (h2 : l2.all Char.isDigit = true) (hne : l1 ≠ [] ∨ l2 ≠ []) :
    normalizeOpenRate (String.mk ((l1 ++ '.' :: l2) ++ ['%'])) =
      some (((natVal l1 : ℚ) + (natVal l2 : ℚ) / (10 : ℚ) ^ l2.length) / 100) := by
  have hdd : ∀ c ∈ l1 ++ '.' :: l2, c.isDigit = true ∨ c = '.' := by
    intro c hc
    rcases List.mem_append.mp hc with hm | hm
    · exact Or.inl (all_digits_mem h1 c hm)
    · rcases List.mem_cons.mp hm with hm | hm
      · exact Or.inr hm
      · exact Or.inl (all_digits_mem h2 c hm)
  have hnp : ∀ c ∈ l1 ++ '.' :: l2, (c == '%') = false := by
    intro c hc
    rcases hdd c hc with hd | hd
    · exact beq_percent_false_of_isDigit hd
    · rw [hd]; decide
  rw [normalizeOpenRate]
  show (parseFloat (rstripPercent ((l1 ++ '.' :: l2) ++ ['%']))).map _ = _
  rw [rstripPercent_append, rstripPercent_of_no_percent _ hnp,
    parseFloat_of_digit_or_dot _ hdd, parseUnsigned_dot l1 l2 h1 h2 hne]
  rfl

/-- Evaluate the normalizer on `"<digits>%"`. -/
lemma normalizeOpenRate_digits_percent (cs : List Char) (hne : cs ≠ [])
    (h : cs.all Char.isDigit = true) :
    normalizeOpenRate (String.mk (cs ++ ['%'])) = some ((natVal cs : ℚ) / 100) := by
  have hnp : ∀ c ∈ cs, (c == '%') = false :=
    fun c hc => beq_percent_false_of_isDigit (all_digits_mem h c hc)
  rw [normalizeOpenRate]
  show (parseFloat (rstripPercent (cs ++ ['%']))).map _ = _
  rw [rstripPercent_append, rstripPercent_of_no_percent _ hnp,
    parseFloat_of_digit_or_dot _ (fun c hc => Or.inl (all_digits_mem h c hc)),
    parseUnsigned_digits cs hne h]
  rfl

/-- Evaluate the normalizer on a bare `"<digits>"` value with no percent sign:
it still succeeds, dividing by 100. -/
lemma normalizeOpenRate_digits_only (cs : List Char) (hne : cs ≠ [])
    (h : cs.all Char.isDigit = true) :
    normalizeOpenRate (String.mk cs) = some ((natVal cs : ℚ) / 100) := by
  have hnp : ∀ c ∈ cs, (c == '%') = false :=
    fun c hc => beq_percent_false_of_isDigit (all_digits_mem h c hc)
  rw [normalizeOpenRate]
  show (parseFloat (rstripPercent cs)).map _ = _
  rw [rstripPercent_of_no_percent _ hnp,
    parseFloat_of_digit_or_dot _ (fun c hc => Or.inl (all_digits_mem h c hc)),
    parseUnsigned_digits cs hne h]
  rfl

lemma digitChar_isDigit : ∀ i : Fin 10, (digitChar i).isDigit = true := by decide

lemma digitVal_digitChar : ∀ i : Fin 10, digitVal (digitChar i) = i.val := by decide

lemma intLitToNat (n : ℕ) [n.AtLeastTwo] :
    (OfNat.ofNat n : ℤ).toNat = OfNat.ofNat n := rfl

/-! ## Quantile lemmas -/

lemma quantile_eq (l : List ℚ) (q : ℚ) :
    quantile l q =
      match (l.insertionSort (· ≤ ·))[(⌊((l.length : ℚ) - 1) * q⌋).toNat]?,
          (l.insertionSort (· ≤ ·))[(⌊((l.length : ℚ) - 1) * q⌋).toNat + 1]? with
      | some a, some b =>
        a + (((l.length : ℚ) - 1) * q - ((⌊((l.length : ℚ) - 1) * q⌋).toNat : ℚ)) * (b - a)
      | some a, none => a
      | none, _ => 0 := rfl

/-- For `q ≤ 1` the interpolation index stays inside the list. -/
lemma quantile_index_lt (l : List ℚ) (q : ℚ) (hne : l ≠ []) (hq : q ≤ 1) :
    (⌊((l.length : ℚ) - 1) * q⌋).toNat < l.length := by
  have hn : 0 < l.length := List.length_pos.mpr hne
  have h0 : (0 : ℚ) ≤ (l.length : ℚ) - 1 := by
    have : (1 : ℚ) ≤ (l.length : ℚ) := by exact_mod_cast hn
    linarith
  have h1 : ((l.length : ℚ) - 1) * q ≤ (l.length : ℚ) - 1 :=
    mul_le_of_le_one_right h0 hq
  have h2 : ⌊((l.length : ℚ) - 1) * q⌋ ≤ (l.length : ℤ) - 1 := by
    calc ⌊((l.length : ℚ) - 1) * q⌋ ≤ ⌊(l.length : ℚ) - 1⌋ := Int.floor_le_floor h1
    _ = (l.length : ℤ) - 1 := by
        rw [show ((l.length : ℚ) - 1) = (((l.length : ℤ) - 1 : ℤ) : ℚ) by push_cast; ring,
          Int.floor_intCast]
  omega

/-- The quantile of a constant nonempty list is that constant, for any `q ≤ 1`. -/
lemma quantile_const (l : List ℚ) (c : ℚ) (hne : l ≠ []) (hc : ∀ x ∈ l, x = c)
    (q : ℚ) (hq : q ≤ 1) : quantile l q = c := by
  have hs : ∀ x ∈ l.insertionSort (· ≤ ·), x = c :=
    fun x hx => hc x ((List.mem_insertionSort _).mp hx)
  have hlen : (l.insertionSort (· ≤ ·)).length = l.length :=
    List.length_insertionSort _ _
  have hi : (⌊((l.length : ℚ) - 1) * q⌋).toNat < (l.insertionSort (· ≤ ·)).length := by
    rw [hlen]; exact quantile_index_lt l q hne hq
  rw [quantile_eq, List.getElem?_eq_getElem hi]
  have hv := hs _ (List.getElem_mem hi)
  rcases h2 : (l.insertionSort (· ≤ ·))[(⌊((l.length : ℚ) - 1) * q⌋).toNat + 1]? with _ | b
  · simpa using hv
  · have hb : b ∈ l.insertionSort (· ≤ ·) := by
      have := List.getElem?_mem h2
      exact this
    have := hs b hb
    simp only []
    rw [hv, this]
    ring

/-! ## Column conversion lemmas -/

section MapColumn

variable {α : Type} {f : String → Option α} {mk : Nat → String → FieldError}

lemma mapColumn_ok_length :
    ∀ (vs : List String) (i : Nat) (as : List α),
      mapColumn f mk i vs = Except.ok as → as.length = vs.length := by
  intro vs
  induction vs with
  | nil =>
    intro i as h
    rw [mapColumn] at h
    injection h with h2
    rw [← h2]
    rfl
  | cons v vs ih =>
    intro i as h
    rw [mapColumn] at h
    cases hf : f v with
    | none => rw [hf] at h; dsimp only at h; cases h
    | some a =>
      rw [hf] at h
      dsimp only at h
      cases hrec : mapColumn f mk (i + 1) vs with
      | error e => rw [hrec] at h; dsimp only at h; cases h
      | ok as2 =>
        rw [hrec] at h
        dsimp only at h
        injection h with h2
        rw [← h2]
        simp only [List.length_cons]
        rw [ih (i + 1) as2 hrec]

lemma mapColumn_ok_mem :
    ∀ (vs : List String) (i : Nat) (as : List α),
      mapColumn f mk i vs = Except.ok as → ∀ a ∈ as, ∃ v ∈ vs, f v = some a := by
  intro vs
  induction vs with
  | nil =>
    intro i as h a ha
    rw [mapColumn] at h
    injection h with h2
    rw [← h2] at ha
    cases ha
  | cons v vs ih =>
    intro i as h a ha
    rw [mapColumn] at h
    cases hf : f v with
    | none => rw [hf] at h; dsimp only at h; cases h
    | some a0 =>
      rw [hf] at h
      dsimp only at h
      cases hrec : mapColumn f mk (i + 1) vs with
      | error e => rw [hrec] at h; dsimp only at h; cases h
      | ok as2 =>
        rw [hrec] at h
        dsimp only at h
        injection h with h2
        rw [← h2] at ha
        rcases List.mem_cons.mp ha with hh | hh
        · exact ⟨v, List.mem_cons_self v vs, hh ▸ hf⟩
        · obtain ⟨w, hw, hfw⟩ := ih (i + 1) as2 hrec a hh
          exact ⟨w, List.mem_cons_of_mem v hw, hfw⟩

lemma mapColumn_ok_all :
    ∀ (vs : List String) (i : Nat) (as : List α),
      mapColumn f mk i vs = Except.ok as → ∀ v ∈ vs, f v ≠ none := by
  intro vs
  induction vs with
  | nil =>
    intro i as _ v hv
    cases hv
  | cons v vs ih =>
    intro i as h w hw
    rw [mapColumn] at h
    cases hf : f v with
    | none => rw [hf] at h; dsimp only at h; cases h
    | some a0 =>
      rw [hf] at h
      dsimp only at h
      cases hrec : mapColumn f mk (i + 1) vs with
      | error e => rw [hrec] at h; dsimp only at h; cases h
      | ok as2 =>
        rcases List.mem_cons.mp hw with hh | hh
        · rw [hh, hf]
          simp
        · exact ih (i + 1) as2 hrec w hh

lemma mapColumn_ok_of_all :
    ∀ (vs : List String) (i : Nat), (∀ v ∈ vs, f v ≠ none) →
      ∃ as, mapColumn f mk i vs = Except.ok as := by
  intro vs
  induction vs with
  | nil => exact fun i _ => ⟨[], rfl⟩
  | cons v vs ih =>
    intro i hall
    obtain ⟨a, ha⟩ := Option.ne_none_iff_exists'.mp (hall v (List.mem_cons_self v vs))
    obtain ⟨as, has⟩ := ih (i + 1) (fun w hw => hall w (List.mem_cons_of_mem v hw))
    refine ⟨a :: as, ?_⟩
    rw [mapColumn, ha]
    dsimp only
    rw [has]

lemma mapColumn_error :
    ∀ (vs : List String) (i : Nat) (e : FieldError),
      mapColumn f mk i vs = Except.error e →
      ∃ j v, e = mk (i + j) v ∧ vs[j]? = some v ∧ f v = none := by
  intro vs
  induction vs with
  | nil =>
    intro i e h
    cases h
  | cons v vs ih =>
    intro i e h
    rw [mapColumn] at h
    cases hf : f v with
    | none =>
      rw [hf] at h
      dsimp only at h
      injection h with h2
      exact ⟨0, v, by rw [← h2, Nat.add_zero], by simp, hf⟩
    | some a0 =>
      rw [hf] at h
      dsimp only at h
      cases hrec : mapColumn f mk (i + 1) vs with
      | error e2 =>
        rw [hrec] at h
        dsimp only at h
        injection h with h2
        obtain ⟨j, w, he, hj, hfw⟩ := ih (i + 1) e2 hrec
        refine ⟨j + 1, w, ?_, by simpa using hj, hfw⟩
        rw [← h2, he]
        congr 1
        omega
      | ok as2 => rw [hrec] at h; dsimp only at h; cases h

end MapColumn

/-! ## Pipeline inversion lemmas -/

lemma process_data_ok_inv (rows : List RawRow)
    (out : List (Record × Bool) × List SummaryRow)
    (h : process_data rows = Except.ok out) :
    ∃ times rates,
      mapColumn parseTimestamp FieldError.sendTime 0 (rows.map RawRow.sendTime) =
        Except.ok times ∧
      mapColumn normalizeOpenRate FieldError.openRate 0 (rows.map RawRow.openRate) =
        Except.ok rates ∧
      out.1 = identify_outliers (sortRecords (buildRecords rows times rates)) ∧
      out.2 = summaryOf out.1 := by
  rw [process_data] at h
  cases h1 : mapColumn parseTimestamp FieldError.sendTime 0 (rows.map RawRow.sendTime) with
  | error e => rw [h1] at h; dsimp only at h; cases h
  | ok times =>
    rw [h1] at h
    dsimp only at h
    cases h2 : mapColumn normalizeOpenRate FieldError.openRate 0 (rows.map RawRow.openRate) with
    | error e => rw [h2] at h; dsimp only at h; cases h
    | ok rates =>
      rw [h2] at h
      dsimp only at h
      injection h with h3
      exact ⟨times, rates, rfl, rfl, by rw [← h3], by rw [← h3]⟩

lemma process_data_error_iff (rows : List RawRow) :
    (∃ e, process_data rows = Except.error e) ↔ ∃ r ∈ rows, malformed r := by
  constructor
  · rintro ⟨e, he⟩
    rw [process_data] at he
    cases h1 : mapColumn parseTimestamp FieldError.sendTime 0 (rows.map RawRow.sendTime) with
    | error e1 =>
      obtain ⟨j, v, _, hj, hfv⟩ := mapColumn_error _ _ _ h1
      rw [List.getElem?_map] at hj
      rcases hr : rows[j]? with _ | r
      · rw [hr] at hj; cases hj
      · rw [hr] at hj
        injection hj with hj2
        exact ⟨r, List.getElem?_mem hr, Or.inl (by rw [← hj2] at hfv; exact hfv)⟩
    | ok times =>
      rw [h1] at he
      dsimp only at he
      cases h2 : mapColumn normalizeOpenRate FieldError.openRate 0 (rows.map RawRow.openRate) with
      | error e2 =>
        obtain ⟨j, v, _, hj, hfv⟩ := mapColumn_error _ _ _ h2
        rw [List.getElem?_map] at hj
        rcases hr : rows[j]? with _ | r
        · rw [hr] at hj; cases hj
        · rw [hr] at hj
          injection hj with hj2
          exact ⟨r, List.getElem?_mem hr, Or.inr (by rw [← hj2] at hfv; exact hfv)⟩
      | ok rates =>
        rw [h2] at he
        dsimp only at he
        cases he
  · rintro ⟨r, hr, hbad⟩
    rcases hp : process_data rows with e | out
    · exact ⟨_, rfl⟩
    · exfalso
      obtain ⟨times, rates, h1, h2, -, -⟩ := process_data_ok_inv rows out hp
      rcases hbad with hbad | hbad
      · exact mapColumn_ok_all _ _ _ h1 r.sendTime
          (List.mem_map_of_mem RawRow.sendTime hr) hbad
      · exact mapColumn_ok_all _ _ _ h2 r.openRate
          (List.mem_map_of_mem RawRow.openRate hr) hbad

/-! ## Outlier-stage structure lemmas -/

/-- Flagging adds a column: the record components are unchanged, in order. -/
lemma identify_outliers_fst (recs : List Record) :
    (identify_outliers recs).map Prod.fst = recs := by
  simp only [identify_outliers, List.map_map]
  exact List.map_id recs

/-! ## Label order lemmas -/

lemma charListLe_total : ∀ as bs : List Char,
    charListLe as bs = true ∨ charListLe bs as = true
  | [], _ => Or.inl rfl
  | _ :: _, [] => Or.inr rfl
  | a :: as, b :: bs => by
    by_cases hab : a.toNat = b.toNat
    · rcases charListLe_total as bs with h | h
      · exact Or.inl (by rw [charListLe, if_pos hab]; exact h)
      · exact Or.inr (by rw [charListLe, if_pos hab.symm]; exact h)
    · by_cases hlt : a.toNat < b.toNat
      · exact Or.inl (by rw [charListLe, if_neg hab]; simpa using hlt)
      · refine Or.inr ?_
        rw [charListLe, if_neg (fun e => hab e.symm)]
        simp only [decide_eq_true_eq]
        omega

lemma charListLe_trans : ∀ as bs cs : List Char,
    charListLe as bs = true → charListLe bs cs = true → charListLe as cs = true
  | [], _, _, _, _ => rfl
  | a :: as, [], _, h1, _ => by simp [charListLe] at h1
  | a :: as, b :: bs, [], _, h2 => by simp [charListLe] at h2
  | a :: as, b :: bs, c :: cs, h1, h2 => by
    rw [charListLe] at h1 h2 ⊢
    by_cases hab : a.toNat = b.toNat
    · rw [if_pos hab] at h1
      by_cases hbc : b.toNat = c.toNat
      · rw [if_pos hbc] at h2
        rw [if_pos (hab.trans hbc)]
        exact charListLe_trans as bs cs h1 h2
      · rw [if_neg hbc] at h2
        simp only [decide_eq_true_eq] at h2
        have hac : a.toNat ≠ c.toNat := by omega
        rw [if_neg hac]
        simp only [decide_eq_true_eq]
        omega
    · rw [if_neg hab] at h1
      simp only [decide_eq_true_eq] at h1
      by_cases hbc : b.toNat = c.toNat
      · have hac : a.toNat ≠ c.toNat := by omega
        rw [if_neg hac]
        simp only [decide_eq_true_eq]
        omega
      · rw [if_neg hbc] at h2
        simp only [decide_eq_true_eq] at h2
        have hac : a.toNat ≠ c.toNat := by omega
        rw [if_neg hac]
        simp only [decide_eq_true_eq]
        omega

instance : IsTotal String labelLe :=
  ⟨fun a b => charListLe_total a.data b.data⟩

instance : IsTrans String labelLe :=
  ⟨fun a b c => charListLe_trans a.data b.data c.data⟩

/-! ## Grouping and counting lemmas -/

lemma sum_map_add {α : Type} (l : List α) (f g : α → ℕ) :
    (l.map (fun x => f x + g x)).sum = (l.map f).sum + (l.map g).sum := by
  induction l with
  | nil => rfl
  | cons a l ih =>
    simp only [List.map_cons, List.sum_cons, ih]
    omega

lemma sum_indicator_one (ls : List String) (g : String) (hnd : ls.Nodup) (hg : g ∈ ls) :
    (ls.map (fun l => if (g == l) = true then 1 else 0)).sum = 1 := by
  induction ls with
  | nil => cases hg
  | cons l ls ih =>
    rw [List.nodup_cons] at hnd
    rcases List.mem_cons.mp hg with he | hm
    · subst he
      rw [List.map_cons, List.sum_cons, if_pos (by simp)]
      have hz : (ls.map (fun l' => if (g == l') = true then 1 else 0)).sum = 0 := by
        apply List.sum_eq_zero
        intro x hx
        obtain ⟨l', hl', rfl⟩ := List.mem_map.mp hx
        rw [if_neg]
        intro hbeq
        exact hnd.1 (beq_iff_eq.mp hbeq ▸ hl')
      omega
    · have hne : (g == l) = false := by
        rcases hb : g == l with _ | _
        · rfl
        · exact absurd (beq_iff_eq.mp hb ▸ hm) hnd.1
      rw [List.map_cons, List.sum_cons, hne]
      simpa using ih hnd.2 hm

lemma length_filter_cons {α : Type} (p : α → Bool) (a : α) (l : List α) :
    ((a :: l).filter p).length = (if p a = true then 1 else 0) + (l.filter p).length := by
  rw [List.filter_cons]
  by_cases h : p a = true
  · rw [if_pos h, if_pos h, List.length_cons]
    omega
  · rw [if_neg h, if_neg h]
    omega

lemma sum_filter_lengths (flagged : List (Record × Bool)) :
    ∀ ls : List String, ls.Nodup → (∀ rb ∈ flagged, rb.1.campaignGroup ∈ ls) →
      (ls.map (fun l =>
        (flagged.filter (fun rb => rb.1.campaignGroup == l)).length)).sum = flagged.length := by
  induction flagged with
  | nil =>
    intro ls _ _
    apply List.sum_eq_zero
    intro x hx
    obtain ⟨l, hl, rfl⟩ := List.mem_map.mp hx
    rfl
  | cons rb fl ih =>
    intro ls hnd hcover
    rw [List.map_congr_left (fun l _ =>
      length_filter_cons (fun rb' => rb'.1.campaignGroup == l) rb fl)]
    rw [sum_map_add, sum_indicator_one ls rb.1.campaignGroup hnd
        (hcover rb (List.mem_cons_self rb fl)),
      ih ls hnd (fun rb' h' => hcover rb' (List.mem_cons_of_mem rb h'))]
    rw [List.length_cons]
    omega

lemma groupLabels_nodup (flagged : List (Record × Bool)) : (groupLabels flagged).Nodup := by
  rw [groupLabels]
  exact ((List.perm_insertionSort labelLe _).nodup_iff).mpr (List.nodup_dedup _)

lemma groupLabels_mem (flagged : List (Record × Bool)) (l : String) :
    l ∈ groupLabels flagged ↔ l ∈ flagged.map (fun rb => rb.1.campaignGroup) := by
  rw [groupLabels, List.mem_insertionSort, List.mem_dedup]

lemma summarize_count (flagged : List (Record × Bool)) (l : String) :
    (summarize flagged l).campaignCount =
      (flagged.filter (fun rb => rb.1.campaignGroup == l)).length := by
  simp [summarize]

/-- Every output row count matches the input row count. -/
lemma process_out1_length (rows : List RawRow)
    (out : List (Record × Bool) × List SummaryRow)
    (h : process_data rows = Except.ok out) : out.1.length = rows.length := by
  obtain ⟨times, rates, h1, h2, hout1, -⟩ := process_data_ok_inv rows out h
  have hlt : times.length = rows.length := by
    have := mapColumn_ok_length _ _ _ h1
    simpa using this
  have hlr : rates.length = rows.length := by
    have := mapColumn_ok_length _ _ _ h2
    simpa using this
  rw [hout1]
  simp [identify_outliers, sortRecords, List.length_insertionSort, buildRecords,
    List.length_zip, hlt, hlr]

/-- Concrete run of the pipeline on the three-group rows. -/
lemma process_data_threeGroups :
    process_data [rowG1, rowG2, rowG3] =
      Except.ok
        (identify_outliers (sortRecords (buildRecords [rowG1, rowG2, rowG3]
          [⟨2024, 8, 21, 12, 0, 0⟩, ⟨2024, 8, 22, 12, 0, 0⟩, ⟨2024, 8, 23, 12, 0, 0⟩]
          [(1/10 : ℚ), (3/10 : ℚ), (1/5 : ℚ)])),
        summaryOf (identify_outliers (sortRecords (buildRecords [rowG1, rowG2, rowG3]
          [⟨2024, 8, 21, 12, 0, 0⟩, ⟨2024, 8, 22, 12, 0, 0⟩, ⟨2024, 8, 23, 12, 0, 0⟩]
          [(1/10 : ℚ), (3/10 : ℚ), (1/5 : ℚ)])))) := by
  have e1 : normalizeOpenRate ("10.00%") = some (1/10) := by
    rw [show ("10.00%" : String) =
        String.mk ((['1', '0'] ++ '.' :: ['0', '0']) ++ ['%']) from rfl,
      normalizeOpenRate_dot_percent ['1', '0'] ['0', '0'] (by decide) (by decide)
        (Or.inl (by decide))]
    norm_num [show natVal ['1', '0'] = 10 from by decide,
      show natVal ['0', '0'] = 0 from by decide]
  have e2 : normalizeOpenRate ("30.00%") = some (3/10) := by
    rw [show ("30.00%" : String) =
        String.mk ((['3', '0'] ++ '.' :: ['0', '0']) ++ ['%']) from rfl,
      normalizeOpenRate_dot_percent ['3', '0'] ['0', '0'] (by decide) (by decide)
        (Or.inl (by decide))]
    norm_num [show natVal ['3', '0'] = 30 from by decide,
      show natVal ['0', '0'] = 0 from by decide]
  have e3 : normalizeOpenRate ("20.00%") = some (1/5) := by
    rw [show ("20.00%" : String) =
        String.mk ((['2', '0'] ++ '.' :: ['0', '0']) ++ ['%']) from rfl,
      normalizeOpenRate_dot_percent ['2', '0'] ['0', '0'] (by decide) (by decide)
        (Or.inl (by decide))]
    norm_num [show natVal ['2', '0'] = 20 from by decide,
      show natVal ['0', '0'] = 0 from by decide]
  have ht : mapColumn parseTimestamp FieldError.sendTime 0
      ([rowG1, rowG2, rowG3].map RawRow.sendTime) =
      Except.ok [⟨2024, 8, 21, 12, 0, 0⟩, ⟨2024, 8, 22, 12, 0, 0⟩,
        ⟨2024, 8, 23, 12, 0, 0⟩] := by
    rw [show [rowG1, rowG2, rowG3].map RawRow.sendTime =
        ["2024-08-21 12:00:00", "2024-08-22 12:00:00", "2024-08-23 12:00:00"] from rfl,
      mapColumn,
      show parseTimestamp ("2024-08-21 12:00:00") = some ⟨2024, 8, 21, 12, 0, 0⟩ from by decide]
    dsimp only
    rw [mapColumn,
      show parseTimestamp ("2024-08-22 12:00:00") = some ⟨2024, 8, 22, 12, 0, 0⟩ from by decide]
    dsimp only
    rw [mapColumn,
      show parseTimestamp ("2024-08-23 12:00:00") = some ⟨2024, 8, 23, 12, 0, 0⟩ from by decide]
    dsimp only
    rw [mapColumn]
  have hr : mapColumn normalizeOpenRate FieldError.openRate 0
      ([rowG1, rowG2, rowG3].map RawRow.openRate) =
      Except.ok [(1/10 : ℚ), (3/10 : ℚ), (1/5 : ℚ)] := by
    rw [show [rowG1, rowG2, rowG3].map RawRow.openRate =
        ["10.00%", "30.00%", "20.00%"] from rfl, mapColumn, e1]
    dsimp only
    rw [mapColumn, e2]
    dsimp only
    rw [mapColumn, e3]
    dsimp only
    rw [mapColumn]
  rw [process_data, ht]
  dsimp only
  rw [hr]

/-! ## Claim theorems -/

/-- C1: a record is flagged as an outlier iff its open rate is strictly below
`Q1 - 1.5*IQR` or strictly above `Q3 + 1.5*IQR`, with `Q1`, `Q3` the
linear-interpolation quartiles over the open rates of the whole dataset (never per
group); and on the open rates `[1, 2, 3, 4, 5, 100]`: `Q1 = 2.25`,
`Q3 = 4.75`, `IQR = 2.5`, bounds `[-1.5, 8.5]`, and only the record with
value 100 is flagged. -/
theorem c1_outlier_rule :
    (∀ recs : List Record,
      (identify_outliers recs).map Prod.snd = recs.map (fun r =>
        decide (r.openRate <
            quantile (recs.map Record.openRate) (1/4) -
              3/2 * (quantile (recs.map Record.openRate) (3/4) -
                quantile (recs.map Record.openRate) (1/4)) ∨
          quantile (recs.map Record.openRate) (3/4) +
              3/2 * (quantile (recs.map Record.openRate) (3/4) -
                quantile (recs.map Record.openRate) (1/4)) < r.openRate))) ∧
    quantile [1, 2, 3, 4, 5, 100] (1/4) = 9/4 ∧
    quantile [1, 2, 3, 4, 5, 100] (3/4) = 19/4 ∧
    (identify_outliers ([1, 2, 3, 4, 5, 100].map mkRec)).map Prod.snd =
      [false, false, false, false, false, true] := by
  refine ⟨fun recs => ?_, ?_, ?_, ?_⟩
  · simp [identify_outliers, List.map_map, Function.comp]
  · norm_num [quantile, List.insertionSort, List.orderedInsert]
  · norm_num [quantile, List.insertionSort, List.orderedInsert]
    simp only [Int.reduceToNat]
    norm_num
  · norm_num [identify_outliers, quantile, mkRec, List.insertionSort, List.orderedInsert,
      decide_eq_true_eq, decide_eq_false_iff_not]
    simp only [Int.reduceToNat]
    norm_num

/-- C2: `categorize_campaign` always returns one of the five fixed labels,
matching case-insensitively with first-match priority
wednesday → friday → monday → monthly → Other; a name containing both
"wednesday" and "friday" resolves to "Wednesday Campaign"; the empty string
maps to "Other". -/
theorem c2_categorize_characterization :
    (∀ name : String,
      categorize_campaign name ∈ ["Wednesday Campaign", "Friday Campaign",
        "Monday Campaign", "Monthly Campaign", "Other"] ∧
      (categorize_campaign name = "Wednesday Campaign" ↔
        strContains (strLower name) "wednesday" = true) ∧
      (categorize_campaign name = "Friday Campaign" ↔
        strContains (strLower name) "wednesday" = false ∧
        strContains (strLower name) "friday" = true) ∧
      (categorize_campaign name = "Monday Campaign" ↔
        strContains (strLower name) "wednesday" = false ∧
        strContains (strLower name) "friday" = false ∧
        strContains (strLower name) "monday" = true) ∧
      (categorize_campaign name = "Monthly Campaign" ↔
        strContains (strLower name) "wednesday" = false ∧
        strContains (strLower name) "friday" = false ∧
        strContains (strLower name) "monday" = false ∧
        strContains (strLower name) "monthly" = true) ∧
      (categorize_campaign name = "Other" ↔
        strContains (strLower name) "wednesday" = false ∧
        strContains (strLower name) "friday" = false ∧
        strContains (strLower name) "monday" = false ∧
        strContains (strLower name) "monthly" = false) ∧
      (strContains (strLower name) "wednesday" = true →
        strContains (strLower name) "friday" = true →
        categorize_campaign name = "Wednesday Campaign")) ∧
    categorize_campaign ("") = "Other" := by
  refine ⟨fun name => ?_, by decide⟩
  unfold categorize_campaign
  cases hw : strContains (strLower name) "wednesday" <;>
    cases hf : strContains (strLower name) "friday" <;>
      cases hm : strContains (strLower name) "monday" <;>
        cases hy : strContains (strLower name) "monthly" <;>
          simp +decide [hw, hf, hm, hy]

/-- C2 witness: a name containing both keywords resolves by priority. -/
theorem c2_witness :
    categorize_campaign ("wednesday friday") = "Wednesday Campaign" :=
  ((c2_categorize_characterization.1 ("wednesday friday")).2.2.2.2.2.2
    (by decide) (by decide))

/-- C3: a percentage string `"NN.NN%"` normalizes to exactly `NN.NN / 100`:
the trailing `%` is stripped, the remainder parsed as a number, and the
result divided by 100 (the rational model is exact, hence within any
tolerance). -/
theorem c3_percent_roundtrip (a b c d : Fin 10) :
    normalizeOpenRate
        (String.mk [digitChar a, digitChar b, '.', digitChar c, digitChar d, '%']) =
      some ((10 * (a.val : ℚ) + (b.val : ℚ) +
        (10 * (c.val : ℚ) + (d.val : ℚ)) / 100) / 100) := by
  have h1 : [digitChar a, digitChar b].all Char.isDigit = true := by
    simp [digitChar_isDigit]
  have h2 : [digitChar c, digitChar d].all Char.isDigit = true := by
    simp [digitChar_isDigit]
  have he := normalizeOpenRate_dot_percent [digitChar a, digitChar b]
    [digitChar c, digitChar d] h1 h2 (Or.inl (by simp))
  rw [show ([digitChar a, digitChar b] ++ '.' :: [digitChar c, digitChar d]) ++ ['%'] =
      [digitChar a, digitChar b, '.', digitChar c, digitChar d, '%'] from rfl] at he
  rw [he]
  congr 1
  simp only [natVal, List.foldl, digitVal_digitChar, List.length_cons, List.length_nil]
  push_cast
  ring

/-- C9: on a nonempty dataset whose open rates are all equal to `c`, both
quartiles equal `c` (so `IQR = 0` and both bounds collapse to `c`) and no
record is flagged as an outlier. -/
theorem c9_zero_variance (recs : List Record) (c : ℚ) (hne : recs ≠ [])
    (hc : ∀ r ∈ recs, r.openRate = c) :
    quantile (recs.map Record.openRate) (1/4) = c ∧
    quantile (recs.map Record.openRate) (3/4) = c ∧
    ∀ rb ∈ identify_outliers recs, rb.2 = false := by
  have hmap : ∀ x ∈ recs.map Record.openRate, x = c := by
    intro x hx
    obtain ⟨r, hr, rfl⟩ := List.mem_map.mp hx
    exact hc r hr
  have hmne : recs.map Record.openRate ≠ [] := by
    simpa using hne
  have h14 := quantile_const _ c hmne hmap (1/4) (by norm_num)
  have h34 := quantile_const _ c hmne hmap (3/4) (by norm_num)
  refine ⟨h14, h34, ?_⟩
  intro rb hrb
  simp only [identify_outliers, List.mem_map] at hrb
  obtain ⟨r, hr, rfl⟩ := hrb
  simp only [h14, h34, hc r hr, decide_eq_false_iff_not, not_or, not_lt]
  constructor <;> [linarith; linarith]

/-- C9 witness: a concrete two-record zero-variance dataset. -/
theorem c9_witness :
    quantile ([mkRec (1/10), mkRec (1/10)].map Record.openRate) (1/4) = 1/10 ∧
    quantile ([mkRec (1/10), mkRec (1/10)].map Record.openRate) (3/4) = 1/10 ∧
    ∀ rb ∈ identify_outliers [mkRec (1/10), mkRec (1/10)], rb.2 = false :=
  c9_zero_variance [mkRec (1/10), mkRec (1/10)] (1/10) (by simp)
    (by
      intro r hr
      have hcase : r = mkRec (1/10) := by
        rcases List.mem_cons.mp hr with h | h
        · exact h
        · rcases List.mem_cons.mp h with h2 | h2
          · exact h2
          · exact absurd h2 (List.not_mem_nil r)
      rw [hcase]
      rfl)

/-- C6: if any row of the input is malformed, the entire run fails: the
pipeline returns an error and never an output pair, so no row-level or
group-summary rows are produced. -/
theorem c6_abort_on_malformed (rows : List RawRow) (h : ∃ r ∈ rows, malformed r) :
    ∃ e, process_data rows = Except.error e ∧
      ∀ out, process_data rows ≠ Except.ok out := by
  obtain ⟨e, he⟩ := (process_data_error_iff rows).mpr h
  exact ⟨e, he, fun out hout => by rw [he] at hout; cases hout⟩

/-- C6 witness: `Open Rate = "abc"` in one of two rows aborts the whole run. -/
theorem c6_witness :
    normalizeOpenRate ("abc") = none ∧
    ∃ e, process_data [goodRow, badRow] = Except.error e ∧
      ∀ out, process_data [goodRow, badRow] ≠ Except.ok out :=
  ⟨by decide,
    c6_abort_on_malformed [goodRow, badRow]
      ⟨badRow, List.mem_cons_of_mem goodRow (List.mem_cons_self badRow []),
        Or.inr (by decide)⟩⟩

/-- C5 (as stated) is false: an `Open Rate` missing the `%` suffix whose
remainder is numeric does not fail normalization — the row `"50"` is accepted
(as 0.5) and the pipeline succeeds. -/
theorem c5_counterexample :
    ¬ malformed rowNoPct ∧
    normalizeOpenRate ("50") = some (1/2) ∧
    ∃ out, process_data [rowNoPct] = Except.ok out := by
  refine ⟨by decide, ?_, ?_⟩
  · rw [show ("50" : String) = String.mk ['5', '0'] from rfl,
      normalizeOpenRate_digits_only ['5', '0'] (by decide) (by decide)]
    norm_num [show natVal ['5', '0'] = 50 from by decide]
  · rcases hp : process_data [rowNoPct] with e | out
    · exfalso
      obtain ⟨r, hr, hbad⟩ := (process_data_error_iff [rowNoPct]).mp ⟨e, hp⟩
      rcases List.mem_cons.mp hr with hh | hh
      · rw [hh] at hbad
        rcases hbad with hb | hb <;> revert hb <;> decide
      · cases hh
    · exact ⟨out, rfl⟩

/-- C5 amended: an `Open Rate` missing the `%` suffix whose remainder is
numeric is accepted rather than rejected; when normalization does fail, it
fails with an error naming the offending field, the row index and the raw
value — the named value is exactly that row of the named column, and it
fails its conversion. Concretely, `Send Time` `"2024-13-01 00:00:00"`
aborts the run naming the `Send Time` field of row 0, and `Open Rate`
`"abc"` in the second row aborts the run naming the `Open Rate` field of
row 1. -/
theorem c5_error_naming :
    (∀ (rows : List RawRow) (i : Nat) (v : String),
      (process_data rows = Except.error (FieldError.sendTime i v) →
        (rows.map RawRow.sendTime)[i]? = some v ∧ parseTimestamp v = none) ∧
      (process_data rows = Except.error (FieldError.openRate i v) →
        (rows.map RawRow.openRate)[i]? = some v ∧ normalizeOpenRate v = none)) ∧
    process_data [rowBadTime] =
      Except.error (FieldError.sendTime 0 ("2024-13-01 00:00:00")) ∧
    process_data [goodRow, badRow] =
      Except.error (FieldError.openRate 1 ("abc")) := by
  refine ⟨fun rows i v => ⟨fun h => ?_, fun h => ?_⟩, ?_, ?_⟩
  · rw [process_data] at h
    cases h1 : mapColumn parseTimestamp FieldError.sendTime 0 (rows.map RawRow.sendTime) with
    | error e1 =>
      rw [h1] at h
      dsimp only at h
      injection h with h2
      obtain ⟨j, w, he, hj, hf⟩ := mapColumn_error _ _ _ h1
      rw [h2] at he
      injection he with hi hv
      rw [Nat.zero_add] at hi
      rw [hi, hv]
      exact ⟨hj, hv ▸ hf⟩
    | ok times =>
      rw [h1] at h
      dsimp only at h
      cases h2 : mapColumn normalizeOpenRate FieldError.openRate 0 (rows.map RawRow.openRate) with
      | error e2 =>
        rw [h2] at h
        dsimp only at h
        injection h with h3
        obtain ⟨j, w, he, hj, hf⟩ := mapColumn_error _ _ _ h2
        rw [h3] at he
        injection he
      | ok rates =>
        rw [h2] at h
        dsimp only at h
        cases h
  · rw [process_data] at h
    cases h1 : mapColumn parseTimestamp FieldError.sendTime 0 (rows.map RawRow.sendTime) with
    | error e1 =>
      rw [h1] at h
      dsimp only at h
      injection h with h2
      obtain ⟨j, w, he, hj, hf⟩ := mapColumn_error _ _ _ h1
      rw [h2] at he
      injection he
    | ok times =>
      rw [h1] at h
      dsimp only at h
      cases h2 : mapColumn normalizeOpenRate FieldError.openRate 0 (rows.map RawRow.openRate) with
      | error e2 =>
        rw [h2] at h
        dsimp only at h
        injection h with h3
        obtain ⟨j, w, he, hj, hf⟩ := mapColumn_error _ _ _ h2
        rw [h3] at he
        injection he with hi hv
        rw [Nat.zero_add] at hi
        rw [hi, hv]
        exact ⟨hj, hv ▸ hf⟩
      | ok rates =>
        rw [h2] at h
        dsimp only at h
        cases h
  · rw [process_data,
      show mapColumn parseTimestamp FieldError.sendTime 0
          ([rowBadTime].map RawRow.sendTime) =
        Except.error (FieldError.sendTime 0 ("2024-13-01 00:00:00")) from by
          rw [show [rowBadTime].map RawRow.sendTime = ["2024-13-01 00:00:00"] from rfl,
            mapColumn, show parseTimestamp ("2024-13-01 00:00:00") = none from by decide]]
  · have e1 : normalizeOpenRate ("10.00%") = some (1/10) := by
      rw [show ("10.00%" : String) =
          String.mk ((['1', '0'] ++ '.' :: ['0', '0']) ++ ['%']) from rfl,
        normalizeOpenRate_dot_percent ['1', '0'] ['0', '0'] (by decide) (by decide)
          (Or.inl (by decide))]
      norm_num [show natVal ['1', '0'] = 10 from by decide,
        show natVal ['0', '0'] = 0 from by decide]
    have ht : mapColumn parseTimestamp FieldError.sendTime 0
        ([goodRow, badRow].map RawRow.sendTime) =
        Except.ok [⟨2024, 8, 21, 12, 0, 0⟩, ⟨2024, 8, 22, 12, 0, 0⟩] := by
      rw [show [goodRow, badRow].map RawRow.sendTime =
          ["2024-08-21 12:00:00", "2024-08-22 12:00:00"] from rfl, mapColumn,
        show parseTimestamp ("2024-08-21 12:00:00") = some ⟨2024, 8, 21, 12, 0, 0⟩ from by decide]
      dsimp only
      rw [mapColumn,
        show parseTimestamp ("2024-08-22 12:00:00") = some ⟨2024, 8, 22, 12, 0, 0⟩ from by decide]
      dsimp only
      rw [mapColumn]
    have hr : mapColumn normalizeOpenRate FieldError.openRate 0
        ([goodRow, badRow].map RawRow.openRate) =
        Except.error (FieldError.openRate 1 ("abc")) := by
      rw [show [goodRow, badRow].map RawRow.openRate = ["10.00%", "abc"] from rfl,
        mapColumn, e1]
      dsimp only
      rw [mapColumn, show normalizeOpenRate ("abc") = none from by decide]
    rw [process_data, ht]
    dsimp only
    rw [hr]

/-- C5 witness: the reported field, row and value for the failing timestamp
input match the offending row, whose value indeed fails conversion. -/
theorem c5_witness :
    ([rowBadTime].map RawRow.sendTime)[0]? = some ("2024-13-01 00:00:00") ∧
    parseTimestamp ("2024-13-01 00:00:00") = none :=
  (c5_error_naming.1 [rowBadTime] 0 ("2024-13-01 00:00:00")).1 c5_error_naming.2.1

/-- C4 (as stated) is false: there is no range check. The input `"150.00%"`
normalizes successfully to 3/2, which lies outside [0, 1], and the pipeline
produces an output row for it instead of failing. -/
theorem c4_counterexample :
    ∃ out, process_data [row150] = Except.ok out ∧
      ∃ rb ∈ out.1, rb.1.openRate = 3/2 ∧ ¬ rb.1.openRate ≤ 1 := by
  have e1 : normalizeOpenRate ("150.00%") = some (3/2) := by
    rw [show ("150.00%" : String) =
        String.mk ((['1', '5', '0'] ++ '.' :: ['0', '0']) ++ ['%']) from rfl,
      normalizeOpenRate_dot_percent ['1', '5', '0'] ['0', '0'] (by decide) (by decide)
        (Or.inl (by decide))]
    norm_num [show natVal ['1', '5', '0'] = 150 from by decide,
      show natVal ['0', '0'] = 0 from by decide]
  have ht : mapColumn parseTimestamp FieldError.sendTime 0 ([row150].map RawRow.sendTime) =
      Except.ok [⟨2024, 8, 21, 12, 0, 0⟩] := by
    rw [show [row150].map RawRow.sendTime = ["2024-08-21 12:00:00"] from rfl, mapColumn,
      show parseTimestamp ("2024-08-21 12:00:00") = some ⟨2024, 8, 21, 12, 0, 0⟩ from by decide]
    dsimp only
    rw [mapColumn]
  have hr : mapColumn normalizeOpenRate FieldError.openRate 0 ([row150].map RawRow.openRate) =
      Except.ok [(3/2 : ℚ)] := by
    rw [show [row150].map RawRow.openRate = ["150.00%"] from rfl, mapColumn, e1]
    dsimp only
    rw [mapColumn]
  have hok : process_data [row150] =
      Except.ok
        (identify_outliers (sortRecords
          (buildRecords [row150] [⟨2024, 8, 21, 12, 0, 0⟩] [(3/2 : ℚ)])),
        summaryOf (identify_outliers (sortRecords
          (buildRecords [row150] [⟨2024, 8, 21, 12, 0, 0⟩] [(3/2 : ℚ)])))) := by
    rw [process_data, ht]
    dsimp only
    rw [hr]
  refine ⟨_, hok, ?_⟩
  · have hmem : buildRecord row150 ⟨2024, 8, 21, 12, 0, 0⟩ (3/2) ∈
        (identify_outliers (sortRecords
          (buildRecords [row150] [⟨2024, 8, 21, 12, 0, 0⟩] [(3/2 : ℚ)]))).map Prod.fst := by
      rw [identify_outliers_fst]
      rw [show buildRecords [row150] [⟨2024, 8, 21, 12, 0, 0⟩] [(3/2 : ℚ)] =
          [buildRecord row150 ⟨2024, 8, 21, 12, 0, 0⟩ (3/2)] from rfl]
      rw [show sortRecords [buildRecord row150 ⟨2024, 8, 21, 12, 0, 0⟩ (3/2)] =
          [buildRecord row150 ⟨2024, 8, 21, 12, 0, 0⟩ (3/2)] from rfl]
      exact List.mem_cons_self _ _
    obtain ⟨rb, hrb, hfst⟩ := List.mem_map.mp hmem
    refine ⟨rb, hrb, ?_, ?_⟩
    · rw [hfst]
      rfl
    · rw [hfst]
      show ¬ (3/2 : ℚ) ≤ 1
      norm_num

/-- C4 amended: normalization applies no range check — the numeric open rate
is exactly the parsed value divided by 100 — so outputs lie in [0, 1] exactly
when every row's parsed open-rate value lies in [0, 1] (percent in
[0, 100]); out-of-range inputs are not rejected. -/
theorem c4_no_range_check (rows : List RawRow)
    (out : List (Record × Bool) × List SummaryRow)
    (h : process_data rows = Except.ok out)
    (hin : ∀ r ∈ rows, ∀ q, normalizeOpenRate r.openRate = some q → 0 ≤ q ∧ q ≤ 1) :
    ∀ rb ∈ out.1, 0 ≤ rb.1.openRate ∧ rb.1.openRate ≤ 1 := by
  obtain ⟨times, rates, h1, h2, hout1, -⟩ := process_data_ok_inv rows out h
  intro rb hrb
  have hfst : rb.1 ∈ (identify_outliers (sortRecords
      (buildRecords rows times rates))).map Prod.fst := by
    rw [hout1] at hrb
    exact List.mem_map_of_mem Prod.fst hrb
  rw [identify_outliers_fst, sortRecords] at hfst
  have hrec : rb.1 ∈ buildRecords rows times rates :=
    (List.mem_insertionSort rateGE).mp hfst
  obtain ⟨rt, hrt, heq⟩ := List.mem_map.mp hrec
  have hq : rt.2.2 ∈ rates := (List.of_mem_zip (List.of_mem_zip hrt).2).2
  obtain ⟨v, hv, hfv⟩ := mapColumn_ok_mem _ _ _ h2 rt.2.2 hq
  obtain ⟨r0, hr0, hveq⟩ := List.mem_map.mp hv
  have hbound := hin r0 hr0 rt.2.2 (by rw [hveq]; exact hfv)
  rw [← heq]
  simpa [buildRecord] using hbound

/-- C4 witness: a dataset whose only open rate is `"10.00%"` satisfies the
in-range premise and every output open rate lies in [0, 1]. -/
theorem c4_witness :
    ∃ out, process_data [goodRow] = Except.ok out ∧
      ∀ rb ∈ out.1, 0 ≤ rb.1.openRate ∧ rb.1.openRate ≤ 1 := by
  have e1 : normalizeOpenRate ("10.00%") = some (1/10) := by
    rw [show ("10.00%" : String) =
        String.mk ((['1', '0'] ++ '.' :: ['0', '0']) ++ ['%']) from rfl,
      normalizeOpenRate_dot_percent ['1', '0'] ['0', '0'] (by decide) (by decide)
        (Or.inl (by decide))]
    norm_num [show natVal ['1', '0'] = 10 from by decide,
      show natVal ['0', '0'] = 0 from by decide]
  have ht : mapColumn parseTimestamp FieldError.sendTime 0 ([goodRow].map RawRow.sendTime) =
      Except.ok [⟨2024, 8, 21, 12, 0, 0⟩] := by
    rw [show [goodRow].map RawRow.sendTime = ["2024-08-21 12:00:00"] from rfl, mapColumn,
      show parseTimestamp ("2024-08-21 12:00:00") = some ⟨2024, 8, 21, 12, 0, 0⟩ from by decide]
    dsimp only
    rw [mapColumn]
  have hr : mapColumn normalizeOpenRate FieldError.openRate 0 ([goodRow].map RawRow.openRate) =
      Except.ok [(1/10 : ℚ)] := by
    rw [show [goodRow].map RawRow.openRate = ["10.00%"] from rfl, mapColumn, e1]
    dsimp only
    rw [mapColumn]
  have hok : process_data [goodRow] =
      Except.ok
        (identify_outliers (sortRecords
          (buildRecords [goodRow] [⟨2024, 8, 21, 12, 0, 0⟩] [(1/10 : ℚ)])),
        summaryOf (identify_outliers (sortRecords
          (buildRecords [goodRow] [⟨2024, 8, 21, 12, 0, 0⟩] [(1/10 : ℚ)])))) := by
    rw [process_data, ht]
    dsimp only
    rw [hr]
  refine ⟨_, hok, c4_no_range_check [goodRow] _ hok ?_⟩
  intro r hr0 q hq
  rcases List.mem_cons.mp hr0 with hh | hh
  · rw [hh, show RawRow.openRate goodRow = "10.00%" from rfl, e1] at hq
    injection hq with hq2
    rw [← hq2]
    norm_num
  · cases hh

/-- C10: the row-level output is sorted by numeric open rate descending, and
it does not preserve the CSV input row order: for the two-row input with
rates 10% then 20%, the output names come back reversed. -/
theorem c10_rows_sorted_desc :
    (∀ (rows : List RawRow) (out : List (Record × Bool) × List SummaryRow),
      process_data rows = Except.ok out →
      out.1.Pairwise (fun a b => b.1.openRate ≤ a.1.openRate)) ∧
    (∃ out, process_data [rowA, rowB] = Except.ok out ∧
      out.1.map (fun rb => rb.1.campaignName) = ["B", "A"] ∧
      [rowA, rowB].map RawRow.campaignName = ["A", "B"]) := by
  constructor
  · intro rows out h
    obtain ⟨times, rates, h1, h2, hout1, -⟩ := process_data_ok_inv rows out h
    rw [hout1]
    simp only [identify_outliers]
    apply List.pairwise_map.mpr
    exact List.sorted_insertionSort rateGE _
  · have e1 : normalizeOpenRate ("10.00%") = some (1/10) := by
      rw [show ("10.00%" : String) =
          String.mk ((['1', '0'] ++ '.' :: ['0', '0']) ++ ['%']) from rfl,
        normalizeOpenRate_dot_percent ['1', '0'] ['0', '0'] (by decide) (by decide)
          (Or.inl (by decide))]
      norm_num [show natVal ['1', '0'] = 10 from by decide,
        show natVal ['0', '0'] = 0 from by decide]
    have e2 : normalizeOpenRate ("20.00%") = some (1/5) := by
      rw [show ("20.00%" : String) =
          String.mk ((['2', '0'] ++ '.' :: ['0', '0']) ++ ['%']) from rfl,
        normalizeOpenRate_dot_percent ['2', '0'] ['0', '0'] (by decide) (by decide)
          (Or.inl (by decide))]
      norm_num [show natVal ['2', '0'] = 20 from by decide,
        show natVal ['0', '0'] = 0 from by decide]
    have ht : mapColumn parseTimestamp FieldError.sendTime 0
        ([rowA, rowB].map RawRow.sendTime) =
        Except.ok [⟨2024, 8, 21, 12, 0, 0⟩, ⟨2024, 8, 22, 12, 0, 0⟩] := by
      rw [show [rowA, rowB].map RawRow.sendTime =
          ["2024-08-21 12:00:00", "2024-08-22 12:00:00"] from rfl, mapColumn,
        show parseTimestamp ("2024-08-21 12:00:00") = some ⟨2024, 8, 21, 12, 0, 0⟩ from by decide]
      dsimp only
      rw [mapColumn,
        show parseTimestamp ("2024-08-22 12:00:00") = some ⟨2024, 8, 22, 12, 0, 0⟩ from by decide]
      dsimp only
      rw [mapColumn]
    have hr : mapColumn normalizeOpenRate FieldError.openRate 0
        ([rowA, rowB].map RawRow.openRate) = Except.ok [(1/10 : ℚ), (1/5 : ℚ)] := by
      rw [show [rowA, rowB].map RawRow.openRate = ["10.00%", "20.00%"] from rfl, mapColumn, e1]
      dsimp only
      rw [mapColumn, e2]
      dsimp only
      rw [mapColumn]
    have hok : process_data [rowA, rowB] =
        Except.ok
          (identify_outliers (sortRecords (buildRecords [rowA, rowB]
            [⟨2024, 8, 21, 12, 0, 0⟩, ⟨2024, 8, 22, 12, 0, 0⟩] [(1/10 : ℚ), (1/5 : ℚ)])),
          summaryOf (identify_outliers (sortRecords (buildRecords [rowA, rowB]
            [⟨2024, 8, 21, 12, 0, 0⟩, ⟨2024, 8, 22, 12, 0, 0⟩] [(1/10 : ℚ), (1/5 : ℚ)])))) := by
      rw [process_data, ht]
      dsimp only
      rw [hr]
    have hs : sortRecords (buildRecords [rowA, rowB]
        [⟨2024, 8, 21, 12, 0, 0⟩, ⟨2024, 8, 22, 12, 0, 0⟩] [(1/10 : ℚ), (1/5 : ℚ)]) =
        [buildRecord rowB ⟨2024, 8, 22, 12, 0, 0⟩ (1/5),
         buildRecord rowA ⟨2024, 8, 21, 12, 0, 0⟩ (1/10)] := by
      rw [show buildRecords [rowA, rowB]
          [⟨2024, 8, 21, 12, 0, 0⟩, ⟨2024, 8, 22, 12, 0, 0⟩] [(1/10 : ℚ), (1/5 : ℚ)] =
          [buildRecord rowA ⟨2024, 8, 21, 12, 0, 0⟩ (1/10),
           buildRecord rowB ⟨2024, 8, 22, 12, 0, 0⟩ (1/5)] from rfl]
      simp only [sortRecords, List.insertionSort, List.orderedInsert]
      rw [if_neg (by
        show ¬ rateGE (buildRecord rowA ⟨2024, 8, 21, 12, 0, 0⟩ (1/10))
          (buildRecord rowB ⟨2024, 8, 22, 12, 0, 0⟩ (1/5))
        show ¬ ((1/5 : ℚ) ≤ 1/10)
        norm_num)]
    refine ⟨_, hok, ?_, rfl⟩
    rw [hs]
    simp only [identify_outliers, List.map_map]
    rfl

/-- C8: each group-summary `Campaign Count` equals the number of row-level
records bearing that label, every summary label is borne by at least one
record (so no zero-count label ever appears), and the counts sum to the
total input row count. -/
theorem c8_group_counts (rows : List RawRow)
    (out : List (Record × Bool) × List SummaryRow)
    (h : process_data rows = Except.ok out) :
    (∀ s ∈ out.2,
      s.campaignCount =
        (out.1.filter (fun rb => rb.1.campaignGroup == s.campaignGroup)).length ∧
      (∃ rb ∈ out.1, rb.1.campaignGroup = s.campaignGroup) ∧
      0 < s.campaignCount) ∧
    (out.2.map SummaryRow.campaignCount).sum = rows.length := by
  obtain ⟨times, rates, h1, h2, hout1, hout2⟩ := process_data_ok_inv rows out h
  have hmem_s : ∀ s ∈ out.2, ∃ l ∈ groupLabels out.1, summarize out.1 l = s := by
    intro s hs
    rw [hout2, summaryOf, sortSummary] at hs
    exact List.mem_map.mp ((List.mem_insertionSort meanGE).mp hs)
  constructor
  · intro s hs
    obtain ⟨l, hl, rfl⟩ := hmem_s s hs
    have hrb : ∃ rb ∈ out.1, rb.1.campaignGroup = l := by
      obtain ⟨rb, hrb, heq⟩ := List.mem_map.mp ((groupLabels_mem out.1 l).mp hl)
      exact ⟨rb, hrb, heq⟩
    obtain ⟨rb, hrbm, hrbg⟩ := hrb
    refine ⟨summarize_count out.1 l, ⟨rb, hrbm, hrbg⟩, ?_⟩
    · rw [summarize_count]
      apply List.length_pos.mpr
      apply List.ne_nil_of_mem (a := rb)
      exact List.mem_filter.mpr ⟨hrbm, by simp [hrbg]⟩
  · have hperm : out.2.Perm ((groupLabels out.1).map (summarize out.1)) := by
      rw [hout2, summaryOf, sortSummary]
      exact List.perm_insertionSort meanGE _
    rw [(hperm.map SummaryRow.campaignCount).sum_eq, List.map_map,
      show SummaryRow.campaignCount ∘ summarize out.1 =
          fun l => (out.1.filter (fun rb => rb.1.campaignGroup == l)).length from
        funext (fun l => summarize_count out.1 l),
      sum_filter_lengths out.1 (groupLabels out.1) (groupLabels_nodup out.1)
        (fun rb hrb => (groupLabels_mem out.1 _).mpr
          (List.mem_map_of_mem (fun rb' => rb'.1.campaignGroup) hrb))]
    exact process_out1_length rows out h

/-- C8 witness: on the one-row input the single summary count is 1 and the
counts sum to the input length 1. -/
theorem c8_witness :
    ∃ out, process_data [goodRow] = Except.ok out ∧
      (out.2.map SummaryRow.campaignCount).sum = 1 := by
  have e1 : normalizeOpenRate ("10.00%") = some (1/10) := by
    rw [show ("10.00%" : String) =
        String.mk ((['1', '0'] ++ '.' :: ['0', '0']) ++ ['%']) from rfl,
      normalizeOpenRate_dot_percent ['1', '0'] ['0', '0'] (by decide) (by decide)
        (Or.inl (by decide))]
    norm_num [show natVal ['1', '0'] = 10 from by decide,
      show natVal ['0', '0'] = 0 from by decide]
  have ht : mapColumn parseTimestamp FieldError.sendTime 0 ([goodRow].map RawRow.sendTime) =
      Except.ok [⟨2024, 8, 21, 12, 0, 0⟩] := by
    rw [show [goodRow].map RawRow.sendTime = ["2024-08-21 12:00:00"] from rfl, mapColumn,
      show parseTimestamp ("2024-08-21 12:00:00") = some ⟨2024, 8, 21, 12, 0, 0⟩ from by decide]
    dsimp only
    rw [mapColumn]
  have hr : mapColumn normalizeOpenRate FieldError.openRate 0 ([goodRow].map RawRow.openRate) =
      Except.ok [(1/10 : ℚ)] := by
    rw [show [goodRow].map RawRow.openRate = ["10.00%"] from rfl, mapColumn, e1]
    dsimp only
    rw [mapColumn]
  have hok : process_data [goodRow] =
      Except.ok
        (identify_outliers (sortRecords
          (buildRecords [goodRow] [⟨2024, 8, 21, 12, 0, 0⟩] [(1/10 : ℚ)])),
        summaryOf (identify_outliers (sortRecords
          (buildRecords [goodRow] [⟨2024, 8, 21, 12, 0, 0⟩] [(1/10 : ℚ)])))) := by
    rw [process_data, ht]
    dsimp only
    rw [hr]
  exact ⟨_, hok, (c8_group_counts [goodRow] _ hok).2⟩

/-- C7: the group-summary rows are sorted by mean open rate descending; the
output is a permutation of the grouped table, and any two grouped rows in
grouping order whose means are ordered (in particular, tied) keep their
relative order — a stable sort. For groups with means [0.10, 0.30, 0.20] the
output means are [0.30, 0.20, 0.10]. -/
theorem c7_summary_sorted_desc :
    (∀ (rows : List RawRow) (out : List (Record × Bool) × List SummaryRow),
      process_data rows = Except.ok out →
      out.2.Pairwise (fun a b => b.meanOpenRate ≤ a.meanOpenRate) ∧
      out.2.Perm ((groupLabels out.1).map (summarize out.1)) ∧
      (∀ g1 g2 : SummaryRow,
        List.Sublist [g1, g2] ((groupLabels out.1).map (summarize out.1)) →
        g2.meanOpenRate ≤ g1.meanOpenRate → List.Sublist [g1, g2] out.2)) ∧
    (∃ out, process_data [rowG1, rowG2, rowG3] = Except.ok out ∧
      out.2.map SummaryRow.meanOpenRate = [3/10, 1/5, 1/10]) := by
  constructor
  · intro rows out h
    obtain ⟨-, -, -, -, -, hout2⟩ := process_data_ok_inv rows out h
    rw [hout2, summaryOf, sortSummary]
    exact ⟨List.sorted_insertionSort meanGE _, List.perm_insertionSort meanGE _,
      fun g1 g2 hsub hle => List.pair_sublist_insertionSort hle hsub⟩
  · have hok := process_data_threeGroups
    have hbuild : buildRecords [rowG1, rowG2, rowG3]
        [⟨2024, 8, 21, 12, 0, 0⟩, ⟨2024, 8, 22, 12, 0, 0⟩, ⟨2024, 8, 23, 12, 0, 0⟩]
        [(1/10 : ℚ), (3/10 : ℚ), (1/5 : ℚ)] = [recG1, recG2, recG3] := rfl
    have hsort : sortRecords [recG1, recG2, recG3] = [recG2, recG3, recG1] := by
      simp only [sortRecords, List.insertionSort, List.orderedInsert]
      rw [if_pos (show rateGE recG2 recG3 from by
          show (1/5 : ℚ) ≤ 3/10
          norm_num)]
      simp only [List.orderedInsert]
      rw [if_neg (show ¬ rateGE recG1 recG2 from by
          show ¬ (3/10 : ℚ) ≤ 1/10
          norm_num),
        if_neg (show ¬ rateGE recG1 recG3 from by
          show ¬ (1/5 : ℚ) ≤ 1/10
          norm_num)]
    have hflag : identify_outliers [recG2, recG3, recG1] =
        [(recG2, false), (recG3, false), (recG1, false)] := by
      norm_num [identify_outliers, quantile, List.insertionSort, List.orderedInsert,
        recG1, recG2, recG3, buildRecord, decide_eq_false_iff_not]
    have hlabels : groupLabels [(recG2, false), (recG3, false), (recG1, false)] =
        ["Friday Campaign", "Monday Campaign", "Other"] := by decide
    have hsF : summarize [(recG2, false), (recG3, false), (recG1, false)]
        "Friday Campaign" =
        ⟨"Friday Campaign", 3/10, 3/10, 1⟩ := by
      norm_num [summarize, List.filter_cons,
        show categorize_campaign rowG2.campaignName = "Friday Campaign" from by decide,
        show categorize_campaign rowG3.campaignName ≠ "Friday Campaign" from by decide,
        show categorize_campaign rowG1.campaignName ≠ "Friday Campaign" from by decide,
        quantile, recG1, recG2, recG3, buildRecord]
    have hsM : summarize [(recG2, false), (recG3, false), (recG1, false)]
        "Monday Campaign" =
        ⟨"Monday Campaign", 1/10, 1/10, 1⟩ := by
      norm_num [summarize, List.filter_cons,
        show categorize_campaign rowG2.campaignName ≠ "Monday Campaign" from by decide,
        show categorize_campaign rowG3.campaignName ≠ "Monday Campaign" from by decide,
        show categorize_campaign rowG1.campaignName = "Monday Campaign" from by decide,
        quantile, recG1, recG2, recG3, buildRecord]
    have hsO : summarize [(recG2, false), (recG3, false), (recG1, false)] "Other" =
        ⟨"Other", 1/5, 1/5, 1⟩ := by
      norm_num [summarize, List.filter_cons,
        show categorize_campaign rowG2.campaignName ≠ "Other" from by decide,
        show categorize_campaign rowG3.campaignName = "Other" from by decide,
        show categorize_campaign rowG1.campaignName ≠ "Other" from by decide,
        quantile, recG1, recG2, recG3, buildRecord]
    refine ⟨_, hok, ?_⟩
    show (summaryOf (identify_outliers (sortRecords (buildRecords [rowG1, rowG2, rowG3]
        [⟨2024, 8, 21, 12, 0, 0⟩, ⟨2024, 8, 22, 12, 0, 0⟩, ⟨2024, 8, 23, 12, 0, 0⟩]
        [(1/10 : ℚ), (3/10 : ℚ), (1/5 : ℚ)])))).map SummaryRow.meanOpenRate =
      [3/10, 1/5, 1/10]
    rw [hbuild, hsort, hflag, summaryOf, hlabels, List.map_cons, List.map_cons,
      List.map_cons, List.map_nil, hsF, hsM, hsO, sortSummary]
    simp only [List.insertionSort, List.orderedInsert]
    rw [if_neg (show ¬ meanGE (⟨"Monday Campaign", 1/10, 1/10, 1⟩ : SummaryRow)
        ⟨"Other", 1/5, 1/5, 1⟩ from by
        show ¬ (1/5 : ℚ) ≤ 1/10
        norm_num)]
    simp only [List.orderedInsert]
    rw [if_pos (show meanGE (⟨"Friday Campaign", 3/10, 3/10, 1⟩ : SummaryRow)
        ⟨"Other", 1/5, 1/5, 1⟩ from by
        show (1/5 : ℚ) ≤ 3/10
        norm_num)]
    rfl

/-- C7 witness: the summary of the concrete three-group run is sorted by
mean open rate descending. -/
theorem c7_witness :
    (summaryOf (identify_outliers (sortRecords (buildRecords [rowG1, rowG2, rowG3]
      [⟨2024, 8, 21, 12, 0, 0⟩, ⟨2024, 8, 22, 12, 0, 0⟩, ⟨2024, 8, 23, 12, 0, 0⟩]
      [(1/10 : ℚ), (3/10 : ℚ), (1/5 : ℚ)])))).Pairwise
      (fun a b => b.meanOpenRate ≤ a.meanOpenRate) :=
  (c7_summary_sorted_desc.1 [rowG1, rowG2, rowG3] _ process_data_threeGroups).1

/-- C10 witness: the row table of the concrete three-group run is sorted by open
rate descending. -/
theorem c10_witness :
    (identify_outliers (sortRecords (buildRecords [rowG1, rowG2, rowG3]
      [⟨2024, 8, 21, 12, 0, 0⟩, ⟨2024, 8, 22, 12, 0, 0⟩, ⟨2024, 8, 23, 12, 0, 0⟩]
      [(1/10 : ℚ), (3/10 : ℚ), (1/5 : ℚ)]))).Pairwise
      (fun a b => b.1.openRate ≤ a.1.openRate) :=
  c10_rows_sorted_desc.1 [rowG1, rowG2, rowG3] _ process_data_threeGroups

end CampaignApp
